import Mathlib

/-!
# A verification development for `tombuente/mux`

`src/mux.go` is a thin layer over Go's `net/http`: a `Mux` owns an
`http.ServeMux` (the dispatch table) and an ordered list of middleware
factories.  This file embeds it shallowly:

* Go strings that are inspected character by character (patterns, request
  paths) are `List Char`; `'/'` is ASCII, so byte and character views agree.
* A handler (`http.Handler`) is its effect on the response writer: a function
  from the request and the current recorder state to the next recorder state.
* The pointer receiver `m *Mux` becomes explicit state passing; a Go panic is
  an `Except.error`.
* A mounted child router is captured by the handler it denotes at mount time.
-/

namespace Mux

/-! ## The HTTP abstractions the router consumes -/

/-- The part of `http.Request` the router and its collaborators look at. -/
structure Request where
  Method : String
  Path : List Char
deriving DecidableEq, Repr

/-- The `httptest.ResponseRecorder` used by `src/mux_test.go`: status code,
header map in insertion order, the chunks written to the body in order, and
the flag recording that the status line has been written. -/
structure ResponseRecorder where
  Code : Nat
  HeaderMap : List (String × String)
  Body : List String
  wroteHeader : Bool
deriving DecidableEq, Repr

/-- `httptest.NewRecorder()`. -/
def NewRecorder : ResponseRecorder :=
  { Code := 200, HeaderMap := [], Body := [], wroteHeader := false }

/-- `w.Header().Add(key, value)`. -/
def ResponseRecorder.HeaderAdd (w : ResponseRecorder) (key value : String) : ResponseRecorder :=
  { w with HeaderMap := w.HeaderMap ++ [(key, value)] }

/-- `w.Header().Set(key, value)`: replaces whatever was stored under `key`. -/
def ResponseRecorder.HeaderSet (w : ResponseRecorder) (key value : String) : ResponseRecorder :=
  { w with HeaderMap := (w.HeaderMap.filter (fun kv => kv.1 != key)) ++ [(key, value)] }

/-- `w.Header().Get(key)`: the first value stored under `key`, or `""`. -/
def ResponseRecorder.HeaderGet (w : ResponseRecorder) (key : String) : String :=
  match w.HeaderMap.find? (fun kv => kv.1 == key) with
  | some kv => kv.2
  | none => ""

/-- `w.WriteHeader(code)`: only the first call takes effect. -/
def ResponseRecorder.WriteHeader (w : ResponseRecorder) (code : Nat) : ResponseRecorder :=
  if w.wroteHeader then w else { w with Code := code, wroteHeader := true }

/-- `w.Write(chunk)`: writes the status line (200) first when it is still
pending, then appends the chunk to the body. -/
def ResponseRecorder.Write (w : ResponseRecorder) (chunk : String) : ResponseRecorder :=
  let w1 := w.WriteHeader 200
  { w1 with Body := w1.Body ++ [chunk] }

/-- An `http.Handler`, by its `ServeHTTP(w, r)`. -/
abbrev Handler := Request → ResponseRecorder → ResponseRecorder

/-- A middleware factory `func(http.Handler) http.Handler`. -/
abbrev Middleware := Handler → Handler

/-- The ways a call into the router can panic. -/
inductive Panic where
  | indexOutOfRange
  | conflict
deriving DecidableEq, Repr

/-- Modelled from the spec: `http.NotFound` belongs to `net/http`, which is
not among the sources; this is the "standard not found response" of the spec
(status 404 with a plain-text body). -/
def NotFound : Handler := fun _ w =>
  (((w.HeaderSet "Content-Type" "text/plain; charset=utf-8").HeaderSet
      "X-Content-Type-Options" "nosniff").WriteHeader 404).Write "404 page not found\n"

/-- Modelled from the spec: `http.StripPrefix` belongs to `net/http`, which is
not among the sources.  The wrapper removes `prefix` from the request path
before the wrapped handler sees it; for the empty prefix it is the handler
itself, and a path that does not start with the prefix is answered with the
not-found response.  Only the decoded path is modelled. -/
def StripPrefix (pfx : List Char) (h : Handler) : Handler :=
  if pfx = [] then h
  else fun r w =>
    if pfx.isPrefixOf r.Path then h { r with Path := r.Path.drop pfx.length } w
    else NotFound r w

/-- Modelled from the spec: the matching rule of the external dispatcher
(`http.ServeMux`, not among the sources), with the two pattern forms the spec
names: a pattern matches a path exactly, and a pattern ending in `/` matches
every path below it. -/
def pathMatch (pattern path : List Char) : Bool :=
  pattern == path || (pattern.getLast? == some '/' && pattern.isPrefixOf path)

/-- Modelled from the spec: the dispatch table of the external dispatcher
(`http.ServeMux`, not among the sources): the registered patterns with their
handlers, newest first. -/
structure ServeMux where
  entries : List (List Char × Handler)

/-- Modelled from the spec: `http.NewServeMux()`, the empty table. -/
def NewServeMux : ServeMux := { entries := [] }

/-- The handler stored under exactly this pattern, if any. -/
def ServeMux.lookup (s : ServeMux) (pattern : List Char) : Option Handler :=
  (s.entries.find? (fun e => e.1 == pattern)).map (fun e => e.2)

/-- Modelled from the spec: `(*http.ServeMux).Handle`, the `register` of the
external dispatcher (not among the sources): patterns are unique keys, and
registering one that is already present is fatal. -/
def ServeMux.Handle (s : ServeMux) (pattern : List Char) (handler : Handler) :
    Except Panic ServeMux :=
  if (s.lookup pattern).isSome then .error .conflict
  else .ok { entries := (pattern, handler) :: s.entries }

/-- Modelled from the spec: most-specific-match selection of the external
dispatcher: among the entries whose pattern matches the path, the one with
the longest pattern. -/
def ServeMux.findHandler : List (List Char × Handler) → List Char → Option (List Char × Handler)
  | [], _ => none
  | (p, h) :: rest, path =>
    match ServeMux.findHandler rest path with
    | some (p', h') =>
      if pathMatch p path && decide (p'.length < p.length) then some (p, h) else some (p', h')
    | none => if pathMatch p path then some (p, h) else none

/-- Modelled from the spec: `(*http.ServeMux).ServeHTTP`, the `dispatch` of
the external dispatcher (not among the sources): invoke the most specific
registered handler, or answer not-found when no pattern matches. -/
def ServeMux.ServeHTTP (s : ServeMux) : Handler := fun r w =>
  match ServeMux.findHandler s.entries r.Path with
  | some (_, h) => h r w
  | none => NotFound r w

/-! ## `src/mux.go` -/

end Mux

/-- The `Mux` struct of `src/mux.go`. -/
structure Mux where
  mux : Mux.ServeMux
  middlewares : List Mux.Middleware

namespace Mux

/-- `New` (mux.go:13). -/
def New : Mux :=
  { mux := NewServeMux, middlewares := [] }

/-- `ServeHTTP` (mux.go:22). -/
def ServeHTTP (m : Mux) : Handler := fun r w =>
  m.mux.ServeHTTP r w

/-- `Use` (mux.go:27). -/
def Use (m : Mux) (middlewares : List Middleware) : Mux :=
  { m with middlewares := m.middlewares ++ middlewares }

/-- `wrapMiddleware` (mux.go:68): the loop `for i := range m.middlewares`
applying `m.middlewares[len(m.middlewares)-1-i]` to the handler built so far.
The index is always in range; the fallback branch is never taken. -/
def wrapMiddleware (m : Mux) (handler : Handler) : Handler :=
  (List.range m.middlewares.length).foldl
    (fun handler i =>
      match m.middlewares[m.middlewares.length - 1 - i]? with
      | some mw => mw handler
      | none => handler)
    handler

/-- `register` (mux.go:64). -/
def register (m : Mux) (pattern : List Char) (handler : Handler) : Except Panic Mux :=
  match m.mux.Handle pattern (m.wrapMiddleware handler) with
  | .ok s => .ok { m with mux := s }
  | .error e => .error e

/-- `Handle` (mux.go:34). -/
def Handle (m : Mux) (pattern : List Char) (handler : Handler) : Except Panic Mux :=
  m.register pattern handler

/-- `HandleFunc` (mux.go:41); `http.HandlerFunc(f)` is the handler whose
`ServeHTTP` calls `f`. -/
def HandleFunc (m : Mux) (pattern : List Char) (handleFunc : Handler) : Except Panic Mux :=
  m.register pattern (fun r w => handleFunc r w)

/-- `Mount` (mux.go:48).  `pattern[len(pattern)-1]` panics on the empty
string; otherwise one trailing `/` is trimmed and the handler is registered
under `pattern + "/"` behind `http.StripPrefix(pattern, handler)`. -/
def Mount (m : Mux) (pattern : List Char) (handler : Handler) : Except Panic Mux :=
  match pattern[pattern.length - 1]? with
  | none => .error .indexOutOfRange
  | some c =>
    let pattern := if c = '/' then pattern.take (pattern.length - 1) else pattern
    m.Handle (pattern ++ ['/']) (StripPrefix pattern handler)

/-- `Route` (mux.go:58).  The configuration function receives the fresh
router and returns it configured (or panics). -/
def Route (m : Mux) (pattern : List Char) (fn : Mux → Except Panic Mux) : Except Panic Mux :=
  let mux := New
  match fn mux with
  | .ok mux => m.Mount pattern mux.ServeHTTP
  | .error e => .error e

/-! ## `src/mux_test.go` -/

/-- `newTestMiddleware` (mux_test.go:11). -/
def newTestMiddleware (key value : String) : Middleware := fun next =>
  fun r w => next r (w.HeaderAdd key value)

/-- `respondEarlyMiddleware` (mux_test.go:20). -/
def respondEarlyMiddleware : Middleware := fun _ =>
  fun _ w => w.WriteHeader 200

/-- The handler function every test registers: `w.WriteHeader(http.StatusOK)`. -/
def okHandler : Handler := fun _ w => w.WriteHeader 200

/-! ## Auxiliary definitions used to state the properties -/

/-- The right fold of a middleware list over a handler: `m1 (m2 (... (mk h)))`. -/
def foldMiddleware (ms : List Middleware) (h : Handler) : Handler :=
  ms.foldr (fun mw acc => mw acc) h

/-- Successive `Use` calls, one middleware per call, in list order. -/
def UseEach (m : Mux) (ms : List Middleware) : Mux :=
  ms.foldl (fun m mw => m.Use [mw]) m

/-- A tracing middleware: records `pre` (a body chunk), calls `next`, then
records `post`. -/
def traceMiddleware (pre post : String) : Middleware := fun next =>
  fun r w => (next r (w.Write pre)).Write post

/-- A final handler that records the event `ev` (a body chunk). -/
def traceHandler (ev : String) : Handler := fun _ w => w.Write ev

/-- The prefix with exactly one trailing `/` removed when it ends in `/`, and
the prefix itself otherwise. -/
def trimSlash (p : List Char) : List Char :=
  if p.getLast? = some '/' then p.dropLast else p

/-- A middleware hands on the request it received: what it does with a
request depends on `next` only through what `next` does with that request. -/
def PassesRequest (mw : Middleware) : Prop :=
  ∀ (next next' : Handler) (r : Request), next r = next' r → mw next r = mw next' r

/-- A middleware that replaces the request path before calling `next`. -/
def rewritePath (path : List Char) : Middleware := fun next =>
  fun r w => next { r with Path := path } w

/-- A final handler that answers with the given status. -/
def statusHandler (code : Nat) : Handler := fun _ w => w.WriteHeader code

/-- The patterns registered by a call that returned, newest first; `none`
when the call panicked. -/
def registered (x : Except Panic Mux) : Option (List (List Char)) :=
  match x with
  | .ok m => some (m.mux.entries.map Prod.fst)
  | .error _ => none

/-- The response of a router produced by a sequence of set-up calls; `none`
when one of them panicked. -/
def served (x : Except Panic Mux) (r : Request) (w : ResponseRecorder) :
    Option ResponseRecorder :=
  match x with
  | .ok m => some (m.ServeHTTP r w)
  | .error _ => none

/-- `Route` as the spec words it: create a fresh child router (empty dispatch
table, empty middleware list), run the configuration function on it, then
mount the configured child under the prefix on the parent. -/
def RouteSpec (parent : Mux) (pfx : List Char) (configure : Mux → Except Panic Mux) :
    Except Panic Mux :=
  let fresh : Mux := { mux := { entries := [] }, middlewares := [] }
  (configure fresh).bind (fun child => parent.Mount pfx child.ServeHTTP)

/-- The routers of `TestMuxNestedMiddleware` (mux_test.go:80-92): `r` with
the `X-Middleware` middleware and `/test`, and `nested` with the
`X-Middleware-Nested` middleware and `/test`, mounted at `/nested`. -/
def nestedTestRouter : Except Panic Mux :=
  ((New.Use [newTestMiddleware "X-Middleware" "1"]).HandleFunc "/test".toList okHandler).bind
    (fun r =>
      ((New.Use [newTestMiddleware "X-Middleware-Nested" "1"]).HandleFunc "/test".toList
          okHandler).bind
        (fun nested => r.Mount "/nested".toList nested.ServeHTTP))

/-- The router of `TestMuxMount` (mux_test.go:125-138): `n1` and `n2`, each
with `/test`, mounted at `/n1` and at `/n2/`. -/
def mountTestRouter : Except Panic Mux :=
  (New.HandleFunc "/test".toList okHandler).bind (fun n1 =>
    (New.HandleFunc "/test".toList okHandler).bind (fun n2 =>
      (New.Mount "/n1".toList n1.ServeHTTP).bind (fun r =>
        r.Mount "/n2/".toList n2.ServeHTTP)))

/-- Go's bounds check for the index expression `s[i]` on a string of length
`len`. -/
def indexInRange (i : Int) (len : Nat) : Prop := 0 ≤ i ∧ i < len

/-- The router a caller holds after a call: the new state when the call
returned, the state before the call when it panicked. -/
def stateAfter (m : Mux) (x : Except Panic Mux) : Mux :=
  match x with
  | .ok m' => m'
  | .error _ => m

/-! ## Basic facts -/

theorem wrapLoop_cons (a : Middleware) (tl : List Middleware) (h : Handler) :
    (List.range (a :: tl).length).foldl
      (fun handler i =>
        match (a :: tl)[(a :: tl).length - 1 - i]? with
        | some mw => mw handler
        | none => handler) h
    = a ((List.range tl.length).foldl
      (fun handler i =>
        match tl[tl.length - 1 - i]? with
        | some mw => mw handler
        | none => handler) h) := by
  rw [List.length_cons, List.range_succ, List.foldl_append]
  simp only [List.foldl_cons, List.foldl_nil, Nat.add_sub_cancel, Nat.sub_self,
    List.getElem?_cons_zero]
  refine congrArg a ?_
  apply List.foldl_ext
  intro acc i hi
  have hlt : i < tl.length := List.mem_range.mp hi
  have e : tl.length - i = (tl.length - 1 - i) + 1 := by omega
  rw [e, List.getElem?_cons_succ]

theorem wrapMiddleware_eq_fold (m : Mux) (h : Handler) :
    m.wrapMiddleware h = foldMiddleware m.middlewares h := by
  obtain ⟨s, ms⟩ := m
  unfold wrapMiddleware foldMiddleware
  simp only
  induction ms with
  | nil => rfl
  | cons a tl ih => rw [wrapLoop_cons, ih]; rfl

theorem lookup_cons_self (p : List Char) (h : Handler) (es : List (List Char × Handler)) :
    ServeMux.lookup { entries := (p, h) :: es } p = some h := by
  simp [ServeMux.lookup]

theorem Handle_eq (m : Mux) (p : List Char) (h : Handler) :
    m.Handle p h =
      if (m.mux.lookup p).isSome then .error .conflict
      else .ok { mux := { entries := (p, m.wrapMiddleware h) :: m.mux.entries },
                 middlewares := m.middlewares } := by
  unfold Handle register ServeMux.Handle
  split_ifs <;> rfl

theorem Handle_free (m : Mux) (p : List Char) (h : Handler) (hfree : m.mux.lookup p = none) :
    m.Handle p h =
      .ok { mux := { entries := (p, m.wrapMiddleware h) :: m.mux.entries },
            middlewares := m.middlewares } := by
  rw [Handle_eq, hfree]; rfl

theorem HandleFunc_eq_Handle (m : Mux) (p : List Char) (f : Handler) :
    m.HandleFunc p f = m.Handle p f := rfl

theorem UseEach_eq (m : Mux) (ms : List Middleware) :
    UseEach m ms = { mux := m.mux, middlewares := m.middlewares ++ ms } := by
  unfold UseEach
  induction ms generalizing m with
  | nil => simp
  | cons a tl ih => rw [List.foldl_cons, ih]; simp [Use]

theorem findHandler_mem {es : List (List Char × Handler)} {path : List Char}
    {e : List Char × Handler} (h : ServeMux.findHandler es path = some e) :
    e ∈ es ∧ pathMatch e.1 path = true := by
  induction es generalizing e with
  | nil => simp [ServeMux.findHandler] at h
  | cons a tl ih =>
    obtain ⟨p, ha⟩ := a
    unfold ServeMux.findHandler at h
    cases hr : ServeMux.findHandler tl path with
    | none =>
      rw [hr] at h
      simp only at h
      split_ifs at h with hm
      cases h
      exact ⟨List.mem_cons_self _ _, hm⟩
    | some e' =>
      obtain ⟨p', h'⟩ := e'
      rw [hr] at h
      simp only at h
      split_ifs at h with hm
      · cases h
        simp only [Bool.and_eq_true] at hm
        exact ⟨List.mem_cons_self _ _, hm.1⟩
      · cases h
        have := ih hr
        exact ⟨List.mem_cons_of_mem _ this.1, this.2⟩

/-- When the newest entry matches the path and every older matching entry has
a shorter pattern, the newest entry is selected. -/
theorem findHandler_cons_best (p : List Char) (h : Handler)
    (es : List (List Char × Handler)) (path : List Char)
    (hm : pathMatch p path = true)
    (hshort : ∀ e ∈ es, pathMatch e.1 path = true → e.1.length < p.length) :
    ServeMux.findHandler ((p, h) :: es) path = some (p, h) := by
  unfold ServeMux.findHandler
  cases hr : ServeMux.findHandler es path with
  | none => simp [hm]
  | some e' =>
    obtain ⟨p', h'⟩ := e'
    have := findHandler_mem hr
    have hlt := hshort _ this.1 this.2
    simp only at hlt
    simp [hm, hlt]

theorem Write_Body (w : ResponseRecorder) (c : String) :
    (w.Write c).Body = w.Body ++ [c] := by
  unfold ResponseRecorder.Write ResponseRecorder.WriteHeader
  split_ifs <;> rfl

theorem fold_trace_Body (evs : List (String × String)) (ev : String) (r : Request)
    (w : ResponseRecorder) :
    (foldMiddleware (evs.map (fun e => traceMiddleware e.1 e.2)) (traceHandler ev) r w).Body
      = w.Body ++ evs.map Prod.fst ++ [ev] ++ (evs.map Prod.snd).reverse := by
  induction evs generalizing w with
  | nil => simp [foldMiddleware, traceHandler, Write_Body]
  | cons a tl ih =>
    have step : foldMiddleware ((a :: tl).map (fun e => traceMiddleware e.1 e.2))
        (traceHandler ev) r w
        = (foldMiddleware (tl.map (fun e => traceMiddleware e.1 e.2)) (traceHandler ev) r
            (w.Write a.1)).Write a.2 := rfl
    rw [step, Write_Body, ih, Write_Body]
    simp

theorem fold_testMiddleware (kvs : List (String × String)) (h : Handler) (r : Request)
    (w : ResponseRecorder) :
    foldMiddleware (kvs.map (fun kv => newTestMiddleware kv.1 kv.2)) h r w
      = h r { w with HeaderMap := w.HeaderMap ++ kvs } := by
  induction kvs generalizing w with
  | nil => simp [foldMiddleware]
  | cons a tl ih =>
    have step : foldMiddleware ((a :: tl).map (fun kv => newTestMiddleware kv.1 kv.2)) h r w
        = foldMiddleware (tl.map (fun kv => newTestMiddleware kv.1 kv.2)) h r
            (w.HeaderAdd a.1 a.2) := rfl
    rw [step, ih]
    simp [ResponseRecorder.HeaderAdd]

/-- A middleware that ignores its `next` argument cuts the chain: what lies
inside it has no influence on the folded handler. -/
theorem fold_short_circuit (pre post : List Middleware) (s : Middleware)
    (hs : ∀ next next' : Handler, s next = s next') (H H' : Handler) :
    foldMiddleware (pre ++ [s] ++ post) H = foldMiddleware (pre ++ [s]) H' := by
  unfold foldMiddleware
  simp only [List.foldr_append, List.foldr_cons, List.foldr_nil]
  rw [hs (List.foldr (fun mw acc => mw acc) H post) H']

/-! ## Middleware composition -/

/-- C1: on a router holding the middleware list `[m1, ..., mk]`, `Handle` and
`HandleFunc` store under a free pattern the right fold `m1 (m2 (... (mk H)))`
of that list over the handler: `A (B (C H))` for `[A, B, C]`, and `H` itself
for the empty list. -/
theorem Handle_stores_right_fold (m : Mux) (p : List Char) (H : Handler)
    (hfree : m.mux.lookup p = none) :
    (∃ m', m.Handle p H = .ok m' ∧
        m'.mux.lookup p = some (m.middlewares.foldr (fun mw acc => mw acc) H)) ∧
    (∃ m', m.HandleFunc p H = .ok m' ∧
        m'.mux.lookup p = some (m.middlewares.foldr (fun mw acc => mw acc) H)) ∧
    (∀ A B C : Middleware, m.middlewares = [A, B, C] →
        ∃ m', m.Handle p H = .ok m' ∧ m'.mux.lookup p = some (A (B (C H)))) ∧
    (m.middlewares = [] → ∃ m', m.Handle p H = .ok m' ∧ m'.mux.lookup p = some H) := by
  have key : ∃ m', m.Handle p H = .ok m' ∧
      m'.mux.lookup p = some (m.middlewares.foldr (fun mw acc => mw acc) H) := by
    refine ⟨_, Handle_free m p H hfree, ?_⟩
    rw [lookup_cons_self, wrapMiddleware_eq_fold]
    rfl
  refine ⟨key, key, ?_, ?_⟩
  · intro A B C hABC
    obtain ⟨m', h1, h2⟩ := key
    refine ⟨m', h1, ?_⟩
    rw [h2, hABC]
    rfl
  · intro hnil
    obtain ⟨m', h1, h2⟩ := key
    refine ⟨m', h1, ?_⟩
    rw [h2, hnil]
    rfl

theorem Handle_stores_right_fold_witness :
    (New.Use [newTestMiddleware "X-A" "1", newTestMiddleware "X-B" "2"]).mux.lookup
        ['/', 't'] = none ∧
    ∃ m', (New.Use [newTestMiddleware "X-A" "1", newTestMiddleware "X-B" "2"]).Handle
        ['/', 't'] okHandler = .ok m' ∧
      m'.mux.lookup ['/', 't'] =
        some (newTestMiddleware "X-A" "1" (newTestMiddleware "X-B" "2" okHandler)) :=
  ⟨rfl, (Handle_stores_right_fold
    (New.Use [newTestMiddleware "X-A" "1", newTestMiddleware "X-B" "2"])
    ['/', 't'] okHandler rfl).1⟩

/-- C2: after `k` successive `Use` calls with tracing middleware
`(pre_i, post_i)` on a new router and `Handle p H` with `H` recording `h`,
serving a request that dispatches to `p` appends to the body exactly
`pre_1, ..., pre_k, h, post_k, ..., post_1`; and with the header-adding test
middleware every header is added, in order, before the handler writes its
status. -/
theorem serve_runs_middleware_in_order (evs kvs : List (String × String)) (ev : String)
    (p : List Char) (r : Request) (w : ResponseRecorder)
    (hmatch : pathMatch p r.Path = true) :
    (∃ m', (UseEach New (evs.map (fun e => traceMiddleware e.1 e.2))).Handle p
          (traceHandler ev) = .ok m' ∧
        (m'.ServeHTTP r w).Body
          = w.Body ++ evs.map Prod.fst ++ [ev] ++ (evs.map Prod.snd).reverse) ∧
    (∃ m', (UseEach New (kvs.map (fun kv => newTestMiddleware kv.1 kv.2))).HandleFunc p
          okHandler = .ok m' ∧
        m'.ServeHTTP r w
          = ResponseRecorder.WriteHeader { w with HeaderMap := w.HeaderMap ++ kvs } 200) := by
  constructor
  · refine ⟨_, Handle_free _ p _ (by rw [UseEach_eq]; rfl), ?_⟩
    unfold ServeHTTP ServeMux.ServeHTTP
    simp only
    rw [findHandler_cons_best _ _ _ _ hmatch (by rw [UseEach_eq]; intro e he; cases he)]
    simp only
    rw [wrapMiddleware_eq_fold, UseEach_eq]
    exact fold_trace_Body evs ev r w
  · refine ⟨_, Handle_free _ p _ (by rw [UseEach_eq]; rfl), ?_⟩
    unfold ServeHTTP ServeMux.ServeHTTP
    simp only
    rw [findHandler_cons_best _ _ _ _ hmatch (by rw [UseEach_eq]; intro e he; cases he)]
    simp only
    rw [wrapMiddleware_eq_fold, UseEach_eq]
    exact fold_testMiddleware kvs okHandler r w

theorem serve_runs_middleware_in_order_witness :
    pathMatch ['/', 't'] ['/', 't'] = true ∧
    ∃ m', (UseEach New ([("a", "z"), ("b", "y")].map
            (fun e => traceMiddleware e.1 e.2))).Handle ['/', 't'] (traceHandler "h") = .ok m' ∧
        (m'.ServeHTTP { Method := "GET", Path := ['/', 't'] } NewRecorder).Body
          = NewRecorder.Body ++ [("a", "z"), ("b", "y")].map Prod.fst ++ ["h"]
              ++ ([("a", "z"), ("b", "y")].map Prod.snd).reverse :=
  ⟨by decide, (serve_runs_middleware_in_order [("a", "z"), ("b", "y")] [] "h" ['/', 't']
    { Method := "GET", Path := ['/', 't'] } NewRecorder (by decide)).1⟩

/-- C3: when a middleware `s` of the list `pre ++ [s] ++ post` never invokes
its `next` argument, `Handle` registers the same handler (and leaves the same
dispatch table) as the list `pre ++ [s]` does with any other final handler, so
neither `post` nor `H` takes part in the response.  The test
`TestMuxMiddlewareExecOrder` answers 200 without the `X-Middleware` header. -/
theorem short_circuit_cuts_chain (s0 : ServeMux) (pre post : List Middleware) (s : Middleware)
    (H H' : Handler) (p : List Char)
    (hs : ∀ next next' : Handler, s next = s next') :
    wrapMiddleware { mux := s0, middlewares := pre ++ [s] ++ post } H
      = wrapMiddleware { mux := s0, middlewares := pre ++ [s] } H' ∧
    (Handle { mux := s0, middlewares := pre ++ [s] ++ post } p H).map (fun m => m.mux)
      = (Handle { mux := s0, middlewares := pre ++ [s] } p H').map (fun m => m.mux) ∧
    (∃ m', ((New.Use [respondEarlyMiddleware]).Use [newTestMiddleware "X-Middleware" "1"]).HandleFunc
          ['/', 't', 'e', 's', 't'] okHandler = .ok m' ∧
        (m'.ServeHTTP { Method := "GET", Path := ['/', 't', 'e', 's', 't'] } NewRecorder).Code = 200 ∧
        (m'.ServeHTTP { Method := "GET", Path := ['/', 't', 'e', 's', 't'] }
          NewRecorder).HeaderGet "X-Middleware" = "") := by
  have hw : wrapMiddleware { mux := s0, middlewares := pre ++ [s] ++ post } H
      = wrapMiddleware { mux := s0, middlewares := pre ++ [s] } H' := by
    rw [wrapMiddleware_eq_fold, wrapMiddleware_eq_fold]
    exact fold_short_circuit pre post s hs H H'
  refine ⟨hw, ?_, ⟨_, rfl, by decide, by decide⟩⟩
  rw [Handle_eq, Handle_eq, hw]
  simp only
  split_ifs <;> rfl

theorem short_circuit_cuts_chain_witness :
    (∀ next next' : Handler, respondEarlyMiddleware next = respondEarlyMiddleware next') ∧
    wrapMiddleware (Mux.mk NewServeMux
        ([] ++ [respondEarlyMiddleware] ++ [newTestMiddleware "X-Middleware" "1"])) okHandler
      = wrapMiddleware (Mux.mk NewServeMux ([] ++ [respondEarlyMiddleware])) NotFound :=
  ⟨fun _ _ => rfl, (short_circuit_cuts_chain NewServeMux [] [newTestMiddleware "X-Middleware" "1"]
    respondEarlyMiddleware okHandler NotFound ['/', 't'] (fun _ _ => rfl)).1⟩

/-- C4: `Use` changes only the middleware list: the dispatch table, and with
it the handler stored under every pattern and the response to every request,
is what it was before the call. -/
theorem Use_keeps_dispatch_table (m : Mux) (ms : List Middleware) :
    (m.Use ms).mux = m.mux ∧
    (∀ p, (m.Use ms).mux.lookup p = m.mux.lookup p) ∧
    (∀ r w, (m.Use ms).ServeHTTP r w = m.ServeHTTP r w) ∧
    (m.Use ms).middlewares = m.middlewares ++ ms :=
  ⟨rfl, fun _ => rfl, fun _ _ => rfl, rfl⟩


theorem Mount_nil (m : Mux) (h : Handler) : m.Mount [] h = .error .indexOutOfRange := rfl

theorem Mount_eq (m : Mux) (p : List Char) (h : Handler) (hne : p ≠ []) :
    m.Mount p h = m.Handle (trimSlash p ++ ['/']) (StripPrefix (trimSlash p) h) := by
  unfold Mount trimSlash
  rw [← List.getLast?_eq_getElem?]
  obtain ⟨c, hc⟩ : ∃ c, p.getLast? = some c := by
    cases hl : p.getLast? with
    | none => exact absurd (List.getLast?_eq_none_iff.mp hl) hne
    | some c => exact ⟨c, rfl⟩
  rw [hc]
  simp only [Option.some.injEq, List.dropLast_eq_take]

theorem trimSlash_of_no_slash (p : List Char) (h : p.getLast? ≠ some '/') : trimSlash p = p := by
  unfold trimSlash
  rw [if_neg h]

theorem trimSlash_concat (p : List Char) : trimSlash (p ++ ['/']) = p := by
  unfold trimSlash
  simp

theorem pathMatch_imp_pre {pat path : List Char} (h : pathMatch pat path = true) :
    pat <+: path := by
  unfold pathMatch at h
  simp only [Bool.or_eq_true, beq_iff_eq, Bool.and_eq_true, List.isPrefixOf_iff_prefix] at h
  rcases h with h | h
  · rw [h]
  · exact h.2

theorem pathMatch_self (p : List Char) : pathMatch p p = true := by
  simp [pathMatch]

theorem pathMatch_mount (pfx q : List Char) (hq : q.head? = some '/') :
    pathMatch (pfx ++ ['/']) (pfx ++ q) = true := by
  cases q with
  | nil => simp at hq
  | cons c q' =>
    simp only [List.head?_cons, Option.some.injEq] at hq
    subst hq
    unfold pathMatch
    simp [List.isPrefixOf_iff_prefix]

/-- When no registered pattern lies at or below `pfx/`, every registered
pattern matching a path below the mount point is shorter than `pfx/`. -/
theorem below_mount_shorter (es : List (List Char × Handler)) (pfx q : List Char)
    (hq : q.head? = some '/')
    (hbelow : ∀ e ∈ es, (pfx ++ ['/']).isPrefixOf e.1 = false) :
    ∀ e ∈ es, pathMatch e.1 (pfx ++ q) = true → e.1.length < (pfx ++ ['/']).length := by
  intro e he hm
  by_contra hlt
  have hp1 : e.1 <+: pfx ++ q := pathMatch_imp_pre hm
  have hp2 : (pfx ++ ['/']) <+: pfx ++ q := pathMatch_imp_pre (pathMatch_mount pfx q hq)
  have hpre : (pfx ++ ['/']) <+: e.1 :=
    List.prefix_of_prefix_length_le hp2 hp1 (Nat.le_of_not_lt hlt)
  have := hbelow e he
  rw [← List.isPrefixOf_iff_prefix] at hpre
  rw [hpre] at this
  cases this

theorem lookup_none_iff (s : ServeMux) (p : List Char) :
    s.lookup p = none ↔ ∀ e ∈ s.entries, e.1 ≠ p := by
  unfold ServeMux.lookup
  constructor
  · intro h e he heq
    cases hf : s.entries.find? (fun e => e.1 == p) with
    | none =>
      have := List.find?_eq_none.mp hf e he
      simp [heq] at this
    | some x => rw [hf] at h; cases h
  · intro h
    have hf : s.entries.find? (fun e => e.1 == p) = none :=
      List.find?_eq_none.mpr (fun e he => by simpa using h e he)
    rw [hf]
    rfl

theorem lookup_none_of_below (es : List (List Char × Handler)) (pfx : List Char)
    (hbelow : ∀ e ∈ es, (pfx ++ ['/']).isPrefixOf e.1 = false) :
    ServeMux.lookup { entries := es } (pfx ++ ['/']) = none := by
  rw [lookup_none_iff]
  intro e he heq
  have := hbelow e he
  rw [heq, List.isPrefixOf_iff_prefix.mpr (List.prefix_refl _)] at this
  cases this

/-- An exact pattern that was free to register is the most specific match for
its own path. -/
theorem findHandler_exact (p : List Char) (h : Handler) (s : ServeMux)
    (hfree : s.lookup p = none) :
    ServeMux.findHandler ((p, h) :: s.entries) p = some (p, h) := by
  apply findHandler_cons_best _ _ _ _ (pathMatch_self p)
  intro e he hm
  have hpre := pathMatch_imp_pre hm
  have hle := hpre.length_le
  rcases Nat.lt_or_ge e.1.length p.length with hlt | hge
  · exact hlt
  · have heq : e.1 = p := hpre.eq_of_length (Nat.le_antisymm hle hge)
    exact absurd heq ((lookup_none_iff s p).mp hfree e he)

theorem StripPrefix_apply (pfx q : List Char) (h : Handler) (r : Request) (hne : pfx ≠ [])
    (hpath : r.Path = pfx ++ q) :
    StripPrefix pfx h r = h { r with Path := q } := by
  unfold StripPrefix
  rw [if_neg hne]
  funext w
  simp [hpath, List.isPrefixOf_iff_prefix]

theorem StripPrefix_nil (h : Handler) : StripPrefix [] h = h := rfl

theorem Mount_serve (m : Mux) (pfx q : List Char) (h : Handler)
    (hne : pfx ≠ []) (hslash : pfx.getLast? ≠ some '/') (hq : q.head? = some '/')
    (hbelow : ∀ e ∈ m.mux.entries, (pfx ++ ['/']).isPrefixOf e.1 = false) :
    ∃ m', m.Mount pfx h = .ok m' ∧
      ∀ r : Request, r.Path = pfx ++ q →
        m'.ServeHTTP r = m.wrapMiddleware (StripPrefix pfx h) r := by
  have hM := Handle_free m (pfx ++ ['/']) (StripPrefix pfx h)
    (lookup_none_of_below _ pfx hbelow)
  rw [← trimSlash_of_no_slash pfx hslash, ← Mount_eq m pfx h hne,
    trimSlash_of_no_slash pfx hslash] at hM
  refine ⟨_, hM, ?_⟩
  · intro r hpath
    funext w
    unfold ServeHTTP ServeMux.ServeHTTP
    simp only
    rw [hpath, findHandler_cons_best _ _ _ _ (pathMatch_mount pfx q hq)
      (below_mount_shorter _ pfx q hq hbelow)]

theorem Handle_serve_exact (m : Mux) (p : List Char) (H : Handler)
    (hfree : m.mux.lookup p = none) :
    ∃ m', m.Handle p H = .ok m' ∧
      ∀ r : Request, r.Path = p → m'.ServeHTTP r = m.wrapMiddleware H r := by
  refine ⟨_, Handle_free m p H hfree, ?_⟩
  intro r hpath
  funext w
  unfold ServeHTTP ServeMux.ServeHTTP
  simp only
  rw [hpath, findHandler_exact p _ m.mux hfree]

theorem wrapMiddleware_nil (m : Mux) (h : Handler) (hm : m.middlewares = []) :
    m.wrapMiddleware h = h := by
  rw [wrapMiddleware_eq_fold, hm]
  rfl

/-! ## Mounting -/

/-- C5 (as amended): for a non-empty prefix that does not end in `/`, a parent
with no pattern at or below `prefix/`, and a path `q` beginning with `/`:
after `Mount prefix h` a request for `prefix ++ q` is dispatched to the mount
entry (the parent's middleware chain around the strip wrapper), and the strip
wrapper hands `h` the same request with path exactly `q`.  With a child on
which `Handle "/sub/path" H` was called, the child dispatches the stripped
request to its entry for `"/sub/path"`; when neither router has middleware the
response is that of `H` on the request with path `"/sub/path"`. -/
theorem mounted_handler_sees_stripped_path (m child : Mux) (pfx q : List Char) (H h : Handler)
    (r : Request)
    (hne : pfx ≠ []) (hslash : pfx.getLast? ≠ some '/') (hq : q.head? = some '/')
    (hbelow : ∀ e ∈ m.mux.entries, (pfx ++ ['/']).isPrefixOf e.1 = false)
    (hfree : child.mux.lookup "/sub/path".toList = none) :
    (∃ m', m.Mount pfx h = .ok m' ∧
      m'.ServeHTTP { r with Path := pfx ++ q }
        = m.wrapMiddleware (StripPrefix pfx h) { r with Path := pfx ++ q } ∧
      StripPrefix pfx h { r with Path := pfx ++ q } = h { r with Path := q } ∧
      (m.middlewares = [] → m'.ServeHTTP { r with Path := pfx ++ q } = h { r with Path := q })) ∧
    (∃ child' m', child.Handle "/sub/path".toList H = .ok child' ∧
      m.Mount pfx child'.ServeHTTP = .ok m' ∧
      child'.ServeHTTP { r with Path := "/sub/path".toList }
        = child.wrapMiddleware H { r with Path := "/sub/path".toList } ∧
      (m.middlewares = [] → child.middlewares = [] →
        m'.ServeHTTP { r with Path := pfx ++ "/sub/path".toList }
          = H { r with Path := "/sub/path".toList })) := by
  have strip : ∀ (g : Handler) (q' : List Char),
      StripPrefix pfx g { r with Path := pfx ++ q' } = g { r with Path := q' } :=
    fun g q' => StripPrefix_apply pfx q' g _ hne rfl
  constructor
  · obtain ⟨m', hm', hserve⟩ := Mount_serve m pfx q h hne hslash hq hbelow
    refine ⟨m', hm', hserve _ rfl, strip h q, ?_⟩
    intro hnil
    rw [hserve _ rfl, wrapMiddleware_nil m _ hnil, strip]
  · obtain ⟨child', hc', hcserve⟩ := Handle_serve_exact child _ H hfree
    obtain ⟨m', hm', hserve⟩ :=
      Mount_serve m pfx "/sub/path".toList child'.ServeHTTP hne hslash rfl hbelow
    refine ⟨child', m', hc', hm', hcserve _ rfl, ?_⟩
    intro hnil hcnil
    rw [hserve _ rfl, wrapMiddleware_nil m _ hnil, strip, hcserve _ rfl,
      wrapMiddleware_nil child _ hcnil]

theorem mounted_handler_sees_stripped_path_witness :
    ∃ child' m', New.Handle "/sub/path".toList (statusHandler 201) = .ok child' ∧
      New.Mount "/api".toList child'.ServeHTTP = .ok m' ∧
      child'.ServeHTTP { Method := "GET", Path := "/sub/path".toList }
        = New.wrapMiddleware (statusHandler 201) { Method := "GET", Path := "/sub/path".toList } ∧
      (New.middlewares = [] → New.middlewares = [] →
        m'.ServeHTTP { Method := "GET", Path := "/api".toList ++ "/sub/path".toList }
          = statusHandler 201 { Method := "GET", Path := "/sub/path".toList }) :=
  (mounted_handler_sees_stripped_path New New "/api".toList "/x".toList (statusHandler 201)
    okHandler { Method := "GET", Path := [] } (by decide) (by decide) (by decide)
    (fun _ he => by cases he) rfl).2

/-- C5 fails as stated: `Mount` with the empty prefix panics; with the prefix
`"/api/"` the request for `"/api/" ++ "/sub/path"` is answered 404 and never
reaches `H`; a parent middleware that answers early keeps the request from
`H`; and a more specific pattern of the parent takes the request instead. -/
theorem mounted_handler_counterexample :
    New.Mount [] (statusHandler 201) = .error .indexOutOfRange ∧
    served ((New.Handle "/sub/path".toList (statusHandler 201)).bind
        (fun child => New.Mount "/api/".toList child.ServeHTTP))
      { Method := "GET", Path := "/api/".toList ++ "/sub/path".toList } NewRecorder
      ≠ some (statusHandler 201 { Method := "GET", Path := "/sub/path".toList } NewRecorder) ∧
    served ((New.Handle "/sub/path".toList (statusHandler 201)).bind
        (fun child => (New.Use [respondEarlyMiddleware]).Mount "/api".toList child.ServeHTTP))
      { Method := "GET", Path := "/api".toList ++ "/sub/path".toList } NewRecorder
      ≠ some (statusHandler 201 { Method := "GET", Path := "/sub/path".toList } NewRecorder) ∧
    served ((New.Handle "/sub/path".toList (statusHandler 201)).bind
        (fun child => (New.Handle "/api/sub/path".toList (statusHandler 202)).bind
          (fun parent => parent.Mount "/api".toList child.ServeHTTP)))
      { Method := "GET", Path := "/api".toList ++ "/sub/path".toList } NewRecorder
      ≠ some (statusHandler 201 { Method := "GET", Path := "/sub/path".toList } NewRecorder) := by
  refine ⟨rfl, ?_, ?_, ?_⟩ <;> decide

/-- C6 fails as stated: with the empty prefix `Mount "/"` registers `"/"`
while `Mount ""` panics, and with the prefix `"/api/"` the two calls register
the different patterns `"/api//"` and `"/api/"`. -/
theorem Mount_slash_counterexample :
    New.Mount ([] ++ ['/']) okHandler ≠ New.Mount [] okHandler ∧
    New.Mount ("/api/".toList ++ ['/']) okHandler ≠ New.Mount "/api/".toList okHandler := by
  constructor
  · intro h
    have := congrArg registered h
    revert this
    decide
  · intro h
    have := congrArg registered h
    revert this
    decide

/-- C6 (as amended): for every non-empty prefix `p` that does not end in `/`,
every handler and every router state, `Mount (p ++ "/")` and `Mount p` are the
same call: both register the pattern `p ++ "/"` with the wrapper
`StripPrefix p`. -/
theorem Mount_trailing_slash_optional (m : Mux) (p : List Char) (h : Handler)
    (hne : p ≠ []) (hslash : p.getLast? ≠ some '/') :
    m.Mount (p ++ ['/']) h = m.Mount p h ∧
    m.Mount p h = m.Handle (p ++ ['/']) (StripPrefix p h) := by
  have h1 : m.Mount (p ++ ['/']) h = m.Handle (p ++ ['/']) (StripPrefix p h) := by
    rw [Mount_eq m (p ++ ['/']) h (by simp), trimSlash_concat]
  have h2 : m.Mount p h = m.Handle (p ++ ['/']) (StripPrefix p h) := by
    rw [Mount_eq m p h hne, trimSlash_of_no_slash p hslash]
  exact ⟨h1.trans h2.symm, h2⟩

theorem Mount_trailing_slash_optional_witness :
    New.Mount ("/api".toList ++ ['/']) okHandler = New.Mount "/api".toList okHandler :=
  (Mount_trailing_slash_optional New "/api".toList okHandler (by decide) (by decide)).1

theorem fold_passes (P : List Middleware) (hP : ∀ mw ∈ P, PassesRequest mw)
    (h1 h2 : Handler) (r : Request) (heq : h1 r = h2 r) :
    foldMiddleware P h1 r = foldMiddleware P h2 r := by
  induction P with
  | nil => exact heq
  | cons a tl ih =>
    exact hP a (List.mem_cons_self _ _) _ _ r
      (ih (fun mw hmw => hP mw (List.mem_cons_of_mem _ hmw)))

theorem newTestMiddleware_passes (key value : String) :
    PassesRequest (newTestMiddleware key value) := by
  intro next next' r h
  funext w
  show next r _ = next' r _
  rw [h]

/-- C7 (as amended): for a non-empty prefix not ending in `/`, a path `q`
beginning with `/`, a parent with middleware list `P` and no pattern at or
below `prefix/`, and a child with middleware list `C` on which `Handle q H`
was called: after `Mount prefix child` a request for `prefix ++ q` is served
by `fold P (strip prefix child)`, and the child serves every request with path
`q` by `fold C H`.  When every middleware of `P` hands on the request it
received, the response is that of `fold P (strip prefix (fold C H))`.  In
`TestMuxNestedMiddleware` the response to `/nested/test` carries
`X-Middleware` and then `X-Middleware-Nested`. -/
theorem nested_middleware_order (m child : Mux) (pfx q : List Char) (H : Handler) (r : Request)
    (hne : pfx ≠ []) (hslash : pfx.getLast? ≠ some '/') (hq : q.head? = some '/')
    (hbelow : ∀ e ∈ m.mux.entries, (pfx ++ ['/']).isPrefixOf e.1 = false)
    (hfree : child.mux.lookup q = none)
    (hpath : r.Path = pfx ++ q) :
    (∃ child' m', child.Handle q H = .ok child' ∧ m.Mount pfx child'.ServeHTTP = .ok m' ∧
      m'.ServeHTTP r = foldMiddleware m.middlewares (StripPrefix pfx child'.ServeHTTP) r ∧
      (∀ r' : Request, r'.Path = q →
        child'.ServeHTTP r' = foldMiddleware child.middlewares H r') ∧
      ((∀ mw ∈ m.middlewares, PassesRequest mw) →
        m'.ServeHTTP r
          = foldMiddleware m.middlewares
              (StripPrefix pfx (foldMiddleware child.middlewares H)) r)) ∧
    (served nestedTestRouter { Method := "GET", Path := "/nested/test".toList } NewRecorder
        = some { Code := 200,
                 HeaderMap := [("X-Middleware", "1"), ("X-Middleware-Nested", "1")],
                 Body := [], wroteHeader := true }) ∧
    ((served nestedTestRouter { Method := "GET", Path := "/test".toList } NewRecorder).bind
        (fun rec => served nestedTestRouter
          { Method := "GET", Path := "/nested/test".toList } rec)).map
        (fun rec => (rec.Code, rec.HeaderGet "X-Middleware", rec.HeaderGet "X-Middleware-Nested"))
      = some (200, "1", "1") := by
  refine ⟨?_, by decide, by decide⟩
  obtain ⟨child', hc', hcserve⟩ := Handle_serve_exact child q H hfree
  obtain ⟨m', hm', hserve⟩ := Mount_serve m pfx q child'.ServeHTTP hne hslash hq hbelow
  have hchild : ∀ r' : Request, r'.Path = q →
      child'.ServeHTTP r' = foldMiddleware child.middlewares H r' := by
    intro r' hr'
    rw [hcserve r' hr', wrapMiddleware_eq_fold]
  have houter : m'.ServeHTTP r
      = foldMiddleware m.middlewares (StripPrefix pfx child'.ServeHTTP) r := by
    rw [hserve r hpath, wrapMiddleware_eq_fold]
  refine ⟨child', m', hc', hm', houter, hchild, ?_⟩
  intro hP
  rw [houter]
  apply fold_passes _ hP
  rw [StripPrefix_apply pfx q _ r hne hpath, StripPrefix_apply pfx q _ r hne hpath]
  exact hchild _ rfl

theorem nested_middleware_order_witness :
    ∃ child' m',
      (New.Use [newTestMiddleware "X-Middleware-Nested" "1"]).Handle "/test".toList okHandler
        = .ok child' ∧
      (New.Use [newTestMiddleware "X-Middleware" "1"]).Mount "/nested".toList child'.ServeHTTP
        = .ok m' ∧
      m'.ServeHTTP { Method := "GET", Path := "/nested/test".toList }
        = foldMiddleware [newTestMiddleware "X-Middleware" "1"]
            (StripPrefix "/nested".toList
              (foldMiddleware [newTestMiddleware "X-Middleware-Nested" "1"] okHandler))
            { Method := "GET", Path := "/nested/test".toList } := by
  obtain ⟨child', m', h1, h2, _, _, h5⟩ :=
    (nested_middleware_order (New.Use [newTestMiddleware "X-Middleware" "1"])
      (New.Use [newTestMiddleware "X-Middleware-Nested" "1"]) "/nested".toList "/test".toList
      okHandler { Method := "GET", Path := "/nested/test".toList }
      (by decide) (by decide) (by decide) (fun _ he => by cases he) rfl rfl).1
  refine ⟨child', m', h1, h2, h5 ?_⟩
  intro mw hmw
  have : mw = newTestMiddleware "X-Middleware" "1" := by
    simpa [Use, New] using hmw
  rw [this]
  exact newTestMiddleware_passes _ _

/-- C7 fails as stated: `Mount` with the empty prefix panics; with the prefix
`"/nested/"` the request for `"/nested/" ++ "/test"` is answered 404; a parent
middleware that rewrites the path sends the request to another route of the
child; a route `q` without a leading `/` is not below the mount point; and a
more specific pattern of the parent takes the request.  In each case the
response differs from that of `fold P (strip prefix (fold C H))`. -/
theorem nested_middleware_counterexample :
    New.Mount [] okHandler = .error .indexOutOfRange ∧
    served ((New.Handle "/test".toList (statusHandler 201)).bind
        (fun child => New.Mount "/nested/".toList child.ServeHTTP))
      { Method := "GET", Path := "/nested/".toList ++ "/test".toList } NewRecorder
      ≠ some (foldMiddleware [] (StripPrefix "/nested/".toList
          (foldMiddleware [] (statusHandler 201)))
          { Method := "GET", Path := "/nested/".toList ++ "/test".toList } NewRecorder) ∧
    served (((New.Handle "/other".toList (statusHandler 202)).bind
          (fun c => c.Handle "/test".toList (statusHandler 201))).bind
        (fun child => (New.Use [rewritePath "/nested/other".toList]).Mount "/nested".toList
          child.ServeHTTP))
      { Method := "GET", Path := "/nested".toList ++ "/test".toList } NewRecorder
      ≠ some (foldMiddleware [rewritePath "/nested/other".toList] (StripPrefix "/nested".toList
          (foldMiddleware [] (statusHandler 201)))
          { Method := "GET", Path := "/nested".toList ++ "/test".toList } NewRecorder) ∧
    served ((New.Handle "test".toList (statusHandler 201)).bind
        (fun child => New.Mount "/nested".toList child.ServeHTTP))
      { Method := "GET", Path := "/nested".toList ++ "test".toList } NewRecorder
      ≠ some (foldMiddleware [] (StripPrefix "/nested".toList
          (foldMiddleware [] (statusHandler 201)))
          { Method := "GET", Path := "/nested".toList ++ "test".toList } NewRecorder) ∧
    served ((New.Handle "/test".toList (statusHandler 201)).bind
        (fun child => (New.Handle "/nested/test".toList (statusHandler 202)).bind
          (fun parent => parent.Mount "/nested".toList child.ServeHTTP)))
      { Method := "GET", Path := "/nested".toList ++ "/test".toList } NewRecorder
      ≠ some (foldMiddleware [] (StripPrefix "/nested".toList
          (foldMiddleware [] (statusHandler 201)))
          { Method := "GET", Path := "/nested".toList ++ "/test".toList } NewRecorder) := by
  refine ⟨rfl, ?_, ?_, ?_, ?_⟩ <;> decide

theorem Handle_conflict (m : Mux) (p : List Char) (h : Handler)
    (hreg : (m.mux.lookup p).isSome = true) : m.Handle p h = .error .conflict := by
  rw [Handle_eq, if_pos hreg]

theorem Handle_ok_lookup (m m1 : Mux) (p : List Char) (h : Handler)
    (hok : m.Handle p h = .ok m1) : (m1.mux.lookup p).isSome = true := by
  rw [Handle_eq] at hok
  split_ifs at hok
  cases hok
  rw [lookup_cons_self]
  rfl

/-! ## Registration conflicts -/

/-- C8: registering a pattern that is already registered panics and never
overwrites: `Handle` and `HandleFunc` fail on a registered pattern, `Mount`
fails when its normalised pattern `trimSlash prefix ++ "/"` is registered (so
`Mount "/api"` followed by `Mount "/api/"` fails); registering a pattern that
is not yet registered succeeds and keeps every older entry. -/
theorem conflicting_registration_panics (m : Mux) (p pfx : List Char) (h f a b : Handler) :
    ((m.mux.lookup p).isSome = true →
      m.Handle p h = .error .conflict ∧ m.HandleFunc p f = .error .conflict) ∧
    ((m.mux.lookup (trimSlash pfx ++ ['/'])).isSome = true → ∃ e, m.Mount pfx h = .error e) ∧
    (pfx ≠ [] → (m.mux.lookup (trimSlash pfx ++ ['/'])).isSome = true →
      m.Mount pfx h = .error .conflict) ∧
    (∀ m1, m.Mount "/api".toList a = .ok m1 → m1.Mount "/api/".toList b = .error .conflict) ∧
    (m.mux.lookup p = none →
      (∃ m', m.Handle p h = .ok m' ∧
        m'.mux.entries = (p, m.wrapMiddleware h) :: m.mux.entries) ∧
      (∃ m', m.HandleFunc p f = .ok m' ∧
        m'.mux.entries = (p, m.wrapMiddleware f) :: m.mux.entries)) ∧
    (pfx ≠ [] → m.mux.lookup (trimSlash pfx ++ ['/']) = none →
      ∃ m', m.Mount pfx h = .ok m' ∧
        m'.mux.entries
          = (trimSlash pfx ++ ['/'], m.wrapMiddleware (StripPrefix (trimSlash pfx) h))
              :: m.mux.entries) := by
  refine ⟨?_, ?_, ?_, ?_, ?_, ?_⟩
  · intro hreg
    exact ⟨Handle_conflict m p h hreg, Handle_conflict m p f hreg⟩
  · intro hreg
    by_cases hne : pfx = []
    · exact ⟨.indexOutOfRange, by rw [hne]; rfl⟩
    · exact ⟨.conflict, by rw [Mount_eq m pfx h hne]; exact Handle_conflict m _ _ hreg⟩
  · intro hne hreg
    rw [Mount_eq m pfx h hne]
    exact Handle_conflict m _ _ hreg
  · intro m1 hok
    rw [Mount_eq m _ a (by decide)] at hok
    rw [Mount_eq m1 _ b (by decide)]
    have e1 : trimSlash "/api".toList = "/api".toList := by decide
    have e2 : trimSlash "/api/".toList = "/api".toList := by decide
    rw [e1] at hok
    rw [e2]
    exact Handle_conflict m1 _ _ (Handle_ok_lookup m m1 _ _ hok)
  · intro hfree
    exact ⟨⟨_, Handle_free m p h hfree, rfl⟩, ⟨_, Handle_free m p f hfree, rfl⟩⟩
  · intro hne hfree
    have hM := Handle_free m _ (StripPrefix (trimSlash pfx) h) hfree
    rw [← Mount_eq m pfx h hne] at hM
    exact ⟨_, hM, rfl⟩

theorem conflicting_registration_panics_witness :
    (∃ m1, New.Mount "/api".toList okHandler = .ok m1 ∧
      m1.Mount "/api/".toList NotFound = .error .conflict) ∧
    ∃ m', New.Handle "/test".toList okHandler = .ok m' ∧
      m'.Handle "/test".toList NotFound = .error .conflict := by
  constructor
  · exact ⟨_, rfl, (conflicting_registration_panics New [] [] okHandler okHandler okHandler
      NotFound).2.2.2.1 _ rfl⟩
  · exact ⟨_, rfl, ((conflicting_registration_panics
      (Mux.mk { entries := [("/test".toList, okHandler)] } []) "/test".toList [] NotFound
      NotFound okHandler okHandler).1 rfl).1⟩

/-! ## Route -/

/-- C9: `Route p fn` is `Mount p c` for the router `c` obtained by running
`fn` once on a router fresh from `New` (empty dispatch table, empty middleware
list, nothing inherited from the parent); `fn` runs before the mount, so when
`fn` panics nothing is mounted. -/
theorem Route_refines_spec (m : Mux) (p : List Char) (fn : Mux → Except Panic Mux) :
    m.Route p fn = RouteSpec m p fn ∧
    (∀ c, fn New = .ok c → m.Route p fn = m.Mount p c.ServeHTTP) ∧
    (∀ e, fn New = .error e → m.Route p fn = .error e) ∧
    (New.mux.entries = [] ∧ New.middlewares = []) ∧
    (∀ (q : List Char) (H : Handler),
      m.Route p (fun c => c.Handle q H)
        = m.Mount p (ServeHTTP { mux := { entries := [(q, H)] }, middlewares := [] })) := by
  refine ⟨?_, ?_, ?_, ⟨rfl, rfl⟩, ?_⟩
  · unfold Route RouteSpec
    show (match fn New with
      | .ok mux => m.Mount p mux.ServeHTTP
      | .error e => .error e) = (fn New).bind (fun child => m.Mount p child.ServeHTTP)
    cases fn New <;> rfl
  · intro c hc
    unfold Route
    simp only [hc]
  · intro e he
    unfold Route
    simp only [he]
  · intro q H
    rfl

theorem Route_refines_spec_witness :
    (New.Use [newTestMiddleware "X-Middleware" "1"]).Route "/nested".toList
        (fun c => c.Handle "/test".toList okHandler)
      = (New.Use [newTestMiddleware "X-Middleware" "1"]).Mount "/nested".toList
          (ServeHTTP { mux := { entries := [("/test".toList, okHandler)] }, middlewares := [] }) :=
  (Route_refines_spec (New.Use [newTestMiddleware "X-Middleware" "1"]) "/nested".toList
    (fun c => c.Handle "/test".toList okHandler)).2.1 _ rfl

/-- C10: for a non-empty prefix `p`, `Mount p h` registers exactly one new
entry, the pattern `trimSlash p ++ "/"` with the handler
`fold ms (StripPrefix (trimSlash p) h)`, in front of the unchanged older
entries, and leaves the middleware list unchanged (it panics, registering
nothing, exactly when that pattern is already registered).  The pattern ends
in `/`: it is `p` itself when `p` ends in `/` and `p ++ "/"` otherwise. -/
theorem Mount_registers_one_entry (m : Mux) (p : List Char) (h : Handler) (hne : p ≠ []) :
    m.Mount p h =
      (if (m.mux.lookup (trimSlash p ++ ['/'])).isSome then .error .conflict
       else .ok { mux := { entries :=
                    (trimSlash p ++ ['/'],
                      foldMiddleware m.middlewares (StripPrefix (trimSlash p) h))
                      :: m.mux.entries },
                  middlewares := m.middlewares }) ∧
    (trimSlash p ++ ['/']).getLast? = some '/' ∧
    (p.getLast? = some '/' → trimSlash p = p.dropLast ∧ trimSlash p ++ ['/'] = p) ∧
    (p.getLast? ≠ some '/' → trimSlash p = p) := by
  refine ⟨?_, by simp, ?_, trimSlash_of_no_slash p⟩
  · rw [Mount_eq m p h hne, Handle_eq, wrapMiddleware_eq_fold]
  · intro hl
    have ht : trimSlash p = p.dropLast := by
      unfold trimSlash
      rw [if_pos hl]
    exact ⟨ht, by rw [ht]; exact List.dropLast_append_getLast? '/' hl⟩

theorem Mount_registers_one_entry_witness :
    "/n2/".toList ≠ [] ∧
    New.Mount "/n2/".toList okHandler =
      .ok { mux := { entries := [("/n2/".toList, StripPrefix "/n2".toList okHandler)] },
            middlewares := [] } :=
  ⟨by decide, (Mount_registers_one_entry New "/n2/".toList okHandler (by decide)).1⟩

theorem Mount_free (m : Mux) (p : List Char) (h : Handler) (hne : p ≠ [])
    (hfree : m.mux.lookup (trimSlash p ++ ['/']) = none) :
    m.Mount p h =
      .ok { mux := { entries :=
              (trimSlash p ++ ['/'], m.wrapMiddleware (StripPrefix (trimSlash p) h))
                :: m.mux.entries },
            middlewares := m.middlewares } := by
  rw [Mount_eq m p h hne]
  exact Handle_free m _ _ hfree

theorem StripPrefix_append (pfx q : List Char) (h : Handler) (r : Request)
    (hpath : r.Path = pfx ++ q) :
    StripPrefix pfx h r = h { r with Path := q } := by
  by_cases hne : pfx = []
  · subst hne
    have : r = { r with Path := q } := by
      cases r
      simp only [List.nil_append] at hpath
      simp [hpath]
    rw [← this]
    rfl
  · exact StripPrefix_apply pfx q h r hne hpath

/-- Two patterns ending in `/`, neither a prefix of the other: a path below
the first is not matched by the second. -/
theorem independent_no_match (a b q : List Char) (hq : q.head? = some '/')
    (hab : (a ++ ['/']).isPrefixOf (b ++ ['/']) = false)
    (hba : (b ++ ['/']).isPrefixOf (a ++ ['/']) = false) :
    pathMatch (b ++ ['/']) (a ++ q) = false := by
  cases hm : pathMatch (b ++ ['/']) (a ++ q) with
  | false => rfl
  | true =>
    exfalso
    have h1 : (b ++ ['/']) <+: a ++ q := pathMatch_imp_pre hm
    have h2 : (a ++ ['/']) <+: a ++ q := pathMatch_imp_pre (pathMatch_mount a q hq)
    rcases List.prefix_or_prefix_of_prefix h1 h2 with h | h
    · rw [← List.isPrefixOf_iff_prefix] at h
      rw [h] at hba
      cases hba
    · rw [← List.isPrefixOf_iff_prefix] at h
      rw [h] at hab
      cases hab

theorem two_mounts_serve (m : Mux) (p1 p2 q : List Char) (h1 h2 : Handler)
    (hne1 : p1 ≠ []) (hne2 : p2 ≠ []) (hq : q.head? = some '/')
    (hab : (trimSlash p1 ++ ['/']).isPrefixOf (trimSlash p2 ++ ['/']) = false)
    (hba : (trimSlash p2 ++ ['/']).isPrefixOf (trimSlash p1 ++ ['/']) = false)
    (hbelow1 : ∀ e ∈ m.mux.entries, (trimSlash p1 ++ ['/']).isPrefixOf e.1 = false)
    (hbelow2 : ∀ e ∈ m.mux.entries, (trimSlash p2 ++ ['/']).isPrefixOf e.1 = false) :
    ∃ m12, (m.Mount p1 h1).bind (fun m1 => m1.Mount p2 h2) = .ok m12 ∧
      ∀ r : Request,
        (r.Path = trimSlash p1 ++ q →
          m12.ServeHTTP r = m.wrapMiddleware (StripPrefix (trimSlash p1) h1) r) ∧
        (r.Path = trimSlash p2 ++ q →
          m12.ServeHTTP r = m.wrapMiddleware (StripPrefix (trimSlash p2) h2) r) := by
  have hM1 := Mount_free m p1 h1 hne1 (lookup_none_of_below _ _ hbelow1)
  have hne12 : trimSlash p1 ++ ['/'] ≠ trimSlash p2 ++ ['/'] := by
    intro heq
    rw [heq, List.isPrefixOf_iff_prefix.mpr (List.prefix_refl _)] at hab
    cases hab
  have hfree2 : ServeMux.lookup
      { entries := (trimSlash p1 ++ ['/'], m.wrapMiddleware (StripPrefix (trimSlash p1) h1))
          :: m.mux.entries } (trimSlash p2 ++ ['/']) = none := by
    rw [lookup_none_iff]
    intro e he
    rcases List.mem_cons.mp he with he | he
    · rw [he]; exact hne12
    · exact (lookup_none_iff _ _).mp (lookup_none_of_below _ _ hbelow2) e he
  have hM2 := Mount_free
    (Mux.mk { entries :=
        (trimSlash p1 ++ ['/'], m.wrapMiddleware (StripPrefix (trimSlash p1) h1))
          :: m.mux.entries } m.middlewares) p2 h2 hne2 hfree2
  refine ⟨_, by rw [hM1]; exact hM2, ?_⟩
  intro r
  constructor
  · intro hpath
    funext w
    unfold ServeHTTP ServeMux.ServeHTTP
    simp only
    rw [hpath]
    have inner := findHandler_cons_best (trimSlash p1 ++ ['/'])
      (m.wrapMiddleware (StripPrefix (trimSlash p1) h1)) m.mux.entries (trimSlash p1 ++ q)
      (pathMatch_mount _ q hq) (below_mount_shorter _ _ q hq hbelow1)
    unfold ServeMux.findHandler
    rw [inner]
    simp only [independent_no_match _ _ q hq hab hba, Bool.false_and]
    rfl
  · intro hpath
    funext w
    unfold ServeHTTP ServeMux.ServeHTTP
    simp only
    rw [hpath, findHandler_cons_best _ _ _ _ (pathMatch_mount _ q hq)]
    · rfl
    · intro e he hm
      rcases List.mem_cons.mp he with he | he
      · rw [he] at hm
        simp only at hm
        rw [independent_no_match _ _ q hq hba hab] at hm
        cases hm
      · exact below_mount_shorter _ _ q hq hbelow2 e he hm

/-! ## Independent mounts -/

/-- C11 (as amended): for two non-empty prefixes whose normalised patterns
`trimSlash p1 ++ "/"` and `trimSlash p2 ++ "/"` are such that neither is a
prefix of the other, a router with no pattern at or below either of them, and
a path `q` beginning with `/`: after mounting `h1` and `h2`, in either order, a
request for `trimSlash p1 ++ q` is dispatched to the entry of `h1` (the
router's middleware chain around the strip wrapper, which hands `h1` the path
`q`) and a request for `trimSlash p2 ++ q` to the entry of `h2`; neither
response depends on the other handler.  Without middleware on the router the
responses are those of `h1` and `h2` on the request with path `q`.  In
`TestMuxMount` both `/n1/test` and `/n2/test` answer 200. -/
theorem independent_mounts_do_not_interfere (m : Mux) (p1 p2 q : List Char) (h1 h2 : Handler)
    (r : Request)
    (hne1 : p1 ≠ []) (hne2 : p2 ≠ []) (hq : q.head? = some '/')
    (hab : (trimSlash p1 ++ ['/']).isPrefixOf (trimSlash p2 ++ ['/']) = false)
    (hba : (trimSlash p2 ++ ['/']).isPrefixOf (trimSlash p1 ++ ['/']) = false)
    (hbelow1 : ∀ e ∈ m.mux.entries, (trimSlash p1 ++ ['/']).isPrefixOf e.1 = false)
    (hbelow2 : ∀ e ∈ m.mux.entries, (trimSlash p2 ++ ['/']).isPrefixOf e.1 = false) :
    (∃ m12, (m.Mount p1 h1).bind (fun m1 => m1.Mount p2 h2) = .ok m12 ∧
      m12.ServeHTTP { r with Path := trimSlash p1 ++ q }
        = m.wrapMiddleware (StripPrefix (trimSlash p1) h1) { r with Path := trimSlash p1 ++ q } ∧
      m12.ServeHTTP { r with Path := trimSlash p2 ++ q }
        = m.wrapMiddleware (StripPrefix (trimSlash p2) h2) { r with Path := trimSlash p2 ++ q } ∧
      (m.middlewares = [] →
        m12.ServeHTTP { r with Path := trimSlash p1 ++ q } = h1 { r with Path := q } ∧
        m12.ServeHTTP { r with Path := trimSlash p2 ++ q } = h2 { r with Path := q })) ∧
    (∃ m21, (m.Mount p2 h2).bind (fun m2 => m2.Mount p1 h1) = .ok m21 ∧
      m21.ServeHTTP { r with Path := trimSlash p1 ++ q }
        = m.wrapMiddleware (StripPrefix (trimSlash p1) h1) { r with Path := trimSlash p1 ++ q } ∧
      m21.ServeHTTP { r with Path := trimSlash p2 ++ q }
        = m.wrapMiddleware (StripPrefix (trimSlash p2) h2) { r with Path := trimSlash p2 ++ q } ∧
      (m.middlewares = [] →
        m21.ServeHTTP { r with Path := trimSlash p1 ++ q } = h1 { r with Path := q } ∧
        m21.ServeHTTP { r with Path := trimSlash p2 ++ q } = h2 { r with Path := q })) ∧
    (StripPrefix (trimSlash p1) h1 { r with Path := trimSlash p1 ++ q } = h1 { r with Path := q } ∧
      StripPrefix (trimSlash p2) h2 { r with Path := trimSlash p2 ++ q }
        = h2 { r with Path := q }) ∧
    (served mountTestRouter { Method := "GET", Path := "/n1/test".toList } NewRecorder).bind
        (fun rec => served mountTestRouter { Method := "GET", Path := "/n2/test".toList } rec)
      = some { Code := 200, HeaderMap := [], Body := [], wroteHeader := true } := by
  have s1 : StripPrefix (trimSlash p1) h1 { r with Path := trimSlash p1 ++ q }
      = h1 { r with Path := q } := StripPrefix_append _ q h1 _ rfl
  have s2 : StripPrefix (trimSlash p2) h2 { r with Path := trimSlash p2 ++ q }
      = h2 { r with Path := q } := StripPrefix_append _ q h2 _ rfl
  refine ⟨?_, ?_, ⟨s1, s2⟩, by decide⟩
  · obtain ⟨m12, hm, hs⟩ :=
      two_mounts_serve m p1 p2 q h1 h2 hne1 hne2 hq hab hba hbelow1 hbelow2
    refine ⟨m12, hm, (hs _).1 rfl, (hs _).2 rfl, ?_⟩
    intro hnil
    rw [(hs _).1 rfl, (hs _).2 rfl, wrapMiddleware_nil m _ hnil, wrapMiddleware_nil m _ hnil]
    exact ⟨s1, s2⟩
  · obtain ⟨m21, hm, hs⟩ :=
      two_mounts_serve m p2 p1 q h2 h1 hne2 hne1 hq hba hab hbelow2 hbelow1
    refine ⟨m21, hm, (hs _).2 rfl, (hs _).1 rfl, ?_⟩
    intro hnil
    rw [(hs _).2 rfl, (hs _).1 rfl, wrapMiddleware_nil m _ hnil, wrapMiddleware_nil m _ hnil]
    exact ⟨s1, s2⟩

theorem independent_mounts_do_not_interfere_witness :
    ∃ m12, (New.Mount "/n1".toList (statusHandler 201)).bind
        (fun m1 => m1.Mount "/n2/".toList (statusHandler 202)) = .ok m12 ∧
      m12.ServeHTTP { Method := "GET", Path := "/n1/test".toList }
        = statusHandler 201 { Method := "GET", Path := "/test".toList } ∧
      m12.ServeHTTP { Method := "GET", Path := "/n2/test".toList }
        = statusHandler 202 { Method := "GET", Path := "/test".toList } := by
  obtain ⟨m12, hm, _, _, hs⟩ :=
    (independent_mounts_do_not_interfere New "/n1".toList "/n2/".toList "/test".toList
      (statusHandler 201) (statusHandler 202) { Method := "GET", Path := [] }
      (by decide) (by decide) (by decide) (by decide) (by decide)
      (fun _ he => by cases he) (fun _ he => by cases he)).1
  exact ⟨m12, hm, (hs rfl).1, (hs rfl).2⟩

/-- C11 fails as stated: the prefixes `""` and `"x"` have the independent
patterns `"/"` and `"x/"`, yet `Mount ""` panics; a request for
`"/n1" ++ "test"` is not below the mount point and is answered 404; a router
middleware that answers early keeps the request from `h1`; and a more specific
pattern of the router takes the request. -/
theorem independent_mounts_counterexample :
    ((trimSlash [] ++ ['/']).isPrefixOf (trimSlash "x".toList ++ ['/']) = false ∧
      (trimSlash "x".toList ++ ['/']).isPrefixOf (trimSlash [] ++ ['/']) = false ∧
      (New.Mount [] (statusHandler 201)).bind (fun m1 => m1.Mount "x".toList (statusHandler 202))
        = .error .indexOutOfRange) ∧
    served ((New.Mount "/n1".toList (statusHandler 201)).bind
        (fun m1 => m1.Mount "/n2".toList (statusHandler 202)))
      { Method := "GET", Path := "/n1".toList ++ "test".toList } NewRecorder
      ≠ some (statusHandler 201 { Method := "GET", Path := "test".toList } NewRecorder) ∧
    served (((New.Use [respondEarlyMiddleware]).Mount "/n1".toList (statusHandler 201)).bind
        (fun m1 => m1.Mount "/n2".toList (statusHandler 202)))
      { Method := "GET", Path := "/n1".toList ++ "/test".toList } NewRecorder
      ≠ some (statusHandler 201 { Method := "GET", Path := "/test".toList } NewRecorder) ∧
    served ((New.Handle "/n1/test".toList (statusHandler 203)).bind
        (fun m0 => (m0.Mount "/n1".toList (statusHandler 201)).bind
          (fun m1 => m1.Mount "/n2".toList (statusHandler 202))))
      { Method := "GET", Path := "/n1".toList ++ "/test".toList } NewRecorder
      ≠ some (statusHandler 201 { Method := "GET", Path := "/test".toList } NewRecorder) := by
  refine ⟨⟨by decide, by decide, rfl⟩, ?_, ?_, ?_⟩ <;> decide

/-! ## Use -/

/-- C12: `Use` appends its batch to the middleware list, in order; two calls
compose into the single call with the concatenated batch; `Use` with no
argument changes nothing.  A handler registered after several `Use` calls is
wrapped with the right fold of everything added so far, in the order added. -/
theorem Use_appends_and_composes (m : Mux) (a b ms : List Middleware) (H : Handler)
    (p : List Char) :
    (m.Use a).middlewares = m.middlewares ++ a ∧
    (m.Use a).mux = m.mux ∧
    (m.Use a).Use b = m.Use (a ++ b) ∧
    m.Use [] = m ∧
    ((m.Use a).Use b).wrapMiddleware H = foldMiddleware (m.middlewares ++ a ++ b) H ∧
    (UseEach m ms).wrapMiddleware H = foldMiddleware (m.middlewares ++ ms) H ∧
    ((m.Use a).Use b).Handle p H =
      (if (m.mux.lookup p).isSome then .error .conflict
       else .ok { mux := { entries :=
                    (p, foldMiddleware (m.middlewares ++ a ++ b) H) :: m.mux.entries },
                  middlewares := m.middlewares ++ a ++ b }) := by
  refine ⟨rfl, rfl, ?_, ?_, ?_, ?_, ?_⟩
  · simp [Use]
  · cases m
    simp [Use]
  · rw [wrapMiddleware_eq_fold]
    rfl
  · rw [wrapMiddleware_eq_fold, UseEach_eq]
  · rw [Handle_eq, wrapMiddleware_eq_fold]
    rfl

/-! ## Edge cases of `Mount` -/

/-- C13: the index `len(pattern)-1` read by `Mount` is in bounds exactly when
the pattern is non-empty.  For a non-empty pattern the read succeeds and
`Mount` proceeds to registration (it never faults on the index); for the empty
pattern `Mount` faults with index out of range before registering anything, so
the router keeps its dispatch table and middleware list. -/
theorem Mount_index_in_bounds_iff_nonempty (m : Mux) (pattern : List Char) (h : Handler) :
    (indexInRange ((pattern.length : Int) - 1) pattern.length ↔ pattern ≠ []) ∧
    ((pattern[pattern.length - 1]?).isSome = true ↔ pattern ≠ []) ∧
    (pattern ≠ [] →
      m.Mount pattern h
        = m.Handle (trimSlash pattern ++ ['/']) (StripPrefix (trimSlash pattern) h) ∧
      m.Mount pattern h ≠ .error .indexOutOfRange) ∧
    (m.Mount [] h = .error .indexOutOfRange ∧
      (stateAfter m (m.Mount [] h)).mux = m.mux ∧
      (stateAfter m (m.Mount [] h)).middlewares = m.middlewares) ∧
    (m.Mount pattern h = .error .indexOutOfRange ↔ pattern = []) := by
  have hproceed : pattern ≠ [] → m.Mount pattern h ≠ .error .indexOutOfRange := by
    intro hne
    rw [Mount_eq m pattern h hne, Handle_eq]
    split_ifs <;> intro hc <;> cases hc
  refine ⟨?_, ?_, ?_, ⟨rfl, rfl, rfl⟩, ?_⟩
  · unfold indexInRange
    cases pattern with
    | nil => simp
    | cons c tl =>
      simp only [List.length_cons, Nat.cast_add, Nat.cast_one, add_sub_cancel_right, ne_eq,
        reduceCtorEq, not_false_eq_true, iff_true]
      constructor <;> omega
  · cases pattern with
    | nil => simp
    | cons c tl => simp
  · intro hne
    exact ⟨Mount_eq m pattern h hne, hproceed hne⟩
  · constructor
    · intro hfault
      by_contra hne
      exact hproceed hne hfault
    · intro hnil
      rw [hnil]
      rfl

theorem Mount_index_in_bounds_iff_nonempty_witness :
    "/n1".toList ≠ [] ∧
    New.Mount "/n1".toList okHandler
      = New.Handle (trimSlash "/n1".toList ++ ['/']) (StripPrefix (trimSlash "/n1".toList) okHandler) ∧
    New.Mount "/n1".toList okHandler ≠ .error .indexOutOfRange :=
  ⟨by decide,
    (Mount_index_in_bounds_iff_nonempty New "/n1".toList okHandler).2.2.1 (by decide)⟩

/-- C14: `Mount "/"` normalises the prefix to the empty string and registers
under the pattern `"/"`; the strip wrapper for the empty prefix is the handler
itself, so the stored handler is the router's middleware chain around `h` and
every request dispatched to it reaches the chain, and without middleware `h`,
with its path unchanged. -/
theorem Mount_root_is_identity_strip (m : Mux) (h : Handler) :
    trimSlash ['/'] = [] ∧
    StripPrefix [] h = h ∧
    m.Mount ['/'] h = m.Handle ['/'] h ∧
    (m.mux.lookup ['/'] = none →
      ∃ m', m.Mount ['/'] h = .ok m' ∧
        m'.mux.entries = (['/'], m.wrapMiddleware h) :: m.mux.entries ∧
        m'.middlewares = m.middlewares ∧
        ∀ r : Request, r.Path.head? = some '/' →
          (∀ e ∈ m.mux.entries, pathMatch e.1 r.Path = true → e.1.length < 1) →
          m'.ServeHTTP r = m.wrapMiddleware h r ∧
          (m.middlewares = [] → m'.ServeHTTP r = h r)) := by
  have hM : m.Mount ['/'] h = m.Handle ['/'] h := rfl
  refine ⟨rfl, rfl, hM, ?_⟩
  intro hfree
  refine ⟨_, hM.trans (Handle_free m _ h hfree), rfl, rfl, ?_⟩
  intro r hhead hshort
  have hserve : ServeHTTP
      { mux := { entries := (['/'], m.wrapMiddleware h) :: m.mux.entries },
        middlewares := m.middlewares } r = m.wrapMiddleware h r := by
    funext w
    unfold ServeHTTP ServeMux.ServeHTTP
    simp only
    rw [findHandler_cons_best ['/'] _ _ r.Path
      (by simpa using pathMatch_mount [] r.Path hhead) hshort]
  refine ⟨hserve, ?_⟩
  intro hnil
  rw [hserve, wrapMiddleware_nil m h hnil]

theorem Mount_root_is_identity_strip_witness :
    ∃ m', New.Mount ['/'] (statusHandler 201) = .ok m' ∧
      m'.ServeHTTP { Method := "GET", Path := "/any/path".toList }
        = statusHandler 201 { Method := "GET", Path := "/any/path".toList } := by
  obtain ⟨m', hm, _, _, hs⟩ := (Mount_root_is_identity_strip New (statusHandler 201)).2.2.2 rfl
  exact ⟨m', hm, (hs { Method := "GET", Path := "/any/path".toList } (by decide)
    (fun _ he => by cases he)).2 rfl⟩

end Mux
